import Mathlib

set_option maxRecDepth 8192

/-!
Verification development for the shared core of a react-native webview
component.  The embedded functions are translated from
`src/src/WebViewShared.tsx` (which contains two closely related variants of
the shared module; where the variants differ both are embedded, suffixed
`V1` for the first and `V2` for the second) and from the iOS component
shells.  JavaScript strings are embedded as `String`, numbers used only for
identity tests as `Int`/`ℚ`, exceptions as an explicit `threw` flag, and the
React state cell as an explicit record threaded through the handlers.
-/

namespace RNWebView

/-- Characters matched by `[A-Za-z0-9+\-.]`, the tail of a URL scheme in the
`extractOrigin` regular expression. -/
def isSchemeTailChar (c : Char) : Bool :=
  c.isAlpha || c.isDigit || c == '+' || c == '-' || c == '.'

/-- Embedding of `extractOrigin` from `WebViewShared.tsx`: the anchored match
of `/^[A-Za-z][A-Za-z0-9+\-.]+:(\/\/)?[^/]*/` against `url`, returning the
matched prefix, or `""` when there is no match.  The regex is deterministic:
the greedy scheme-tail run must be followed by `:`, the `//` group is taken
when present, and `[^/]*` takes the maximal run of non-`/` characters. -/
def extractOrigin (url : String) : String :=
  match url.toList with
  | [] => ""
  | c :: rest =>
    if c.isAlpha then
      if (rest.takeWhile isSchemeTailChar).isEmpty then ""
      else
        match rest.dropWhile isSchemeTailChar with
        | ':' :: rest3 =>
          match rest3 with
          | '/' :: '/' :: r =>
            String.mk (c :: rest.takeWhile isSchemeTailChar ++
              ':' :: '/' :: '/' :: r.takeWhile (fun d => d ≠ '/'))
          | _ =>
            String.mk (c :: rest.takeWhile isSchemeTailChar ++
              ':' :: rest3.takeWhile (fun d => d ≠ '/'))
        | _ => ""
    else ""

/-- Line terminators, which a JavaScript regexp `.` (no `s` flag) does not
match. -/
def isLineTerm (c : Char) : Bool :=
  c == '\n' || c == '\r' || c == '\u2028' || c == '\u2029'

/-- Fueled matcher for the anchored regexes produced by
`originWhitelistToRegex`: every pattern character is a literal except `*`,
which (after `escapeStringRegexp` and the `\*` → `.*` replacement) matches
any sequence of non-line-terminator characters.  The fuel only serves to make
the recursion structural; each call strictly decreases
`pat.length + s.length`, so the fuel chosen in `globMatch` is never
exhausted. -/
def globMatchF : Nat → List Char → List Char → Bool
  | 0, _, _ => false
  | _ + 1, [], s => s.isEmpty
  | fuel + 1, p :: ps, s =>
    if p == '*' then
      globMatchF fuel ps s ||
        (match s with
         | [] => false
         | c :: cs => !isLineTerm c && globMatchF fuel (p :: ps) cs)
    else
      match s with
      | [] => false
      | c :: cs => p == c && globMatchF fuel ps cs

/-- Whole-string semantics of the compiled whitelist regex for one pattern. -/
def globMatch (pat s : List Char) : Bool :=
  globMatchF (pat.length + s.length + 1) pat s

/-- Joint embedding of `originWhitelistToRegex` and `RegExp.test`: the
compiled matcher of a glob pattern, applied to a candidate origin. -/
def matcherTest (pat s : String) : Bool := globMatch pat.toList s.toList

/-- Result of `_passesWhitelist`, which in the source returns `true`,
`false`, `null`, or throws (when `new URL(url)` throws). -/
inductive WLResult
  | wtrue
  | wfalse
  | wnull
  | wthrow
deriving DecidableEq

/-- Embedding of `compileWhitelist`: prepends the `about:blank` sentinel.  In
the source each element is then mapped through `originWhitelistToRegex`; that
translation is carried by `matcherTest` at matching time. -/
def compileWhitelist (originWhitelist : List String) : List String :=
  "about:blank" :: originWhitelist

/-- Embedding of `_passesWhitelist`, parametrised by the platform URL parser
`parseOrigin` standing for `fun url => (new URL(url)).origin` (`none` models
the parser throwing). -/
def _passesWhitelist (parseOrigin : String → Option String)
    (compiledWhitelist : List String) (url : String) : WLResult :=
  let origin := extractOrigin url
  if origin == "" then .wfalse
  else
    match parseOrigin url with
    | none => .wthrow
    | some o =>
      if origin ≠ o then .wnull
      else if compiledWhitelist.any (fun x => matcherTest x origin) then .wtrue
      else .wfalse

/-- The first variant's `passesWhitelist` (no guard on the URL). -/
def passesWhitelist (parseOrigin : String → Option String)
    (originWhitelist : List String) (url : String) : WLResult :=
  _passesWhitelist parseOrigin (compileWhitelist originWhitelist) url

/-- The second variant's `passesWhitelist`: a falsy URL is rejected before
`_passesWhitelist` runs. -/
def passesWhitelistGuarded (parseOrigin : String → Option String)
    (originWhitelist : List String) (url : String) : WLResult :=
  if url == "" then .wfalse else passesWhitelist parseOrigin originWhitelist url

/-- Schemes the WHATWG URL standard treats as special. -/
def specialSchemes : List String := ["http", "https", "ws", "wss", "ftp"]

/-- Characters ending the host run in the modelled URL parser. -/
def hostChar (c : Char) : Bool := !(c == '/' || c == '?' || c == '#')

/-- Modelled from the spec: the platform WHATWG URL parser reached through
`new URL(url).origin`, which is not part of this repository.  The model is
restricted to the canonical inputs exercised here: a scheme of a letter plus
at least one scheme-tail character, special schemes in `scheme://host...`
form with the origin `scheme://host`, an empty host for a special scheme
failing to parse (as WHATWG requires, e.g. for `https://`), and every other
scheme yielding the serialised non-tuple origin string `"null"`.  `none`
models the constructor throwing. -/
def urlOrigin (url : String) : Option String :=
  match url.toList with
  | [] => none
  | c :: rest =>
    if c.isAlpha then
      if (rest.takeWhile isSchemeTailChar).isEmpty then none
      else
        match rest.dropWhile isSchemeTailChar with
        | ':' :: rest3 =>
          if specialSchemes.contains (String.mk (c :: rest.takeWhile isSchemeTailChar)) then
            match rest3 with
            | '/' :: '/' :: r =>
              if (r.takeWhile hostChar).isEmpty then none
              else some (String.mk (c :: rest.takeWhile isSchemeTailChar) ++ "://" ++
                String.mk (r.takeWhile hostChar))
            | _ => none
          else some "null"
        | _ => none
    else none

/-- JavaScript `String.prototype.split` with a one-character separator:
left-to-right and non-overlapping, always yielding at least one part. -/
def splitOnChar (sep : Char) : List Char → List (List Char)
  | [] => [[]]
  | c :: cs =>
    if c == sep then [] :: splitOnChar sep cs
    else
      match splitOnChar sep cs with
      | [] => [[c]]
      | p :: ps => (c :: p) :: ps

/-- JavaScript `String.prototype.split` with a two-character separator
`⟨a, b⟩`: left-to-right and non-overlapping. -/
def splitOnPair (a b : Char) : List Char → List (List Char)
  | [] => [[]]
  | [c] => [[c]]
  | c :: d :: cs =>
    if c == a && d == b then [] :: splitOnPair a b cs
    else
      match splitOnPair a b (d :: cs) with
      | [] => [[c]]
      | p :: ps => (c :: p) :: ps

/-- JavaScript `s.includes(sep)` for the two-character separator `⟨a, b⟩`:
the separator occurs iff splitting on it yields at least two parts. -/
def jsIncludes2 (a b : Char) (s : String) : Bool :=
  1 < (splitOnPair a b s.toList).length

/-- JavaScript `s.split(sep)` for the two-character separator `⟨a, b⟩`,
repackaged as `String`s. -/
def jsSplit2 (a b : Char) (s : String) : List String :=
  (splitOnPair a b s.toList).map String.mk

theorem splitOnChar_ne_nil (sep : Char) : ∀ l : List Char, splitOnChar sep l ≠ []
  | [] => by simp [splitOnChar]
  | c :: cs => by
    unfold splitOnChar
    by_cases h : c == sep
    · simp [h]
    · simp only [h]
      cases hs : splitOnChar sep cs <;> simp

theorem splitOnPair_ne_nil (a b : Char) : ∀ l : List Char, splitOnPair a b l ≠ []
  | [] => by simp [splitOnPair]
  | [c] => by simp [splitOnPair]
  | c :: d :: cs => by
    unfold splitOnPair
    by_cases h : c == a && d == b
    · simp [h]
    · simp only [h]
      cases hs : splitOnPair a b (d :: cs) <;> simp

/-- Every part of a two-character-separator split is no longer than the
input, and strictly shorter (by the separator length) as soon as the
separator actually occurs. -/
theorem splitOnPair_parts (a b : Char) :
    ∀ l : List Char, ∀ p ∈ splitOnPair a b l,
      p.length ≤ l.length ∧
        (2 ≤ (splitOnPair a b l).length → p.length + 2 ≤ l.length)
  | [] => by simp [splitOnPair]
  | [c] => by simp [splitOnPair]
  | c :: d :: cs => by
    intro p hp
    rw [splitOnPair] at hp ⊢
    by_cases h : c == a && d == b
    · simp only [h, if_true] at hp ⊢
      rcases List.mem_cons.mp hp with rfl | hmem
      · simp
      · have := splitOnPair_parts a b cs p hmem
        simp only [List.length_cons]
        omega
    · simp only [h, if_false] at hp ⊢
      cases hs : splitOnPair a b (d :: cs) with
      | nil => exact absurd hs (splitOnPair_ne_nil a b (d :: cs))
      | cons p0 ps =>
        simp only [hs] at hp ⊢
        rcases List.mem_cons.mp hp with rfl | hmem
        · have h1 := splitOnPair_parts a b (d :: cs) p0 (by rw [hs]; exact List.mem_cons_self _ _)
          rw [hs] at h1
          simp only [List.length_cons] at h1 ⊢
          constructor
          · omega
          · intro hlen
            have : 2 ≤ ps.length + 1 := hlen
            have := h1.2 (by omega)
            omega
        · have h1 := splitOnPair_parts a b (d :: cs) p
            (by rw [hs]; exact List.mem_cons_of_mem _ hmem)
          rw [hs] at h1
          simp only [List.length_cons] at h1 ⊢
          constructor
          · omega
          · intro hlen
            have : ps ≠ [] := by
              intro hnil
              rw [hnil] at hmem
              simp at hmem
            have : 1 ≤ ps.length := List.length_pos.mpr this
            have := h1.2 (by omega)
            omega

/-- When a two-character separator occurs in the input, both of its
characters occur in the input. -/
theorem splitOnPair_mem_sep (a b : Char) :
    ∀ l : List Char, 2 ≤ (splitOnPair a b l).length → a ∈ l ∧ b ∈ l
  | [] => by simp [splitOnPair]
  | [c] => by simp [splitOnPair]
  | c :: d :: cs => by
    intro hlen
    rw [splitOnPair] at hlen
    by_cases h : (c == a && d == b) = true
    · have hab : c = a ∧ d = b := by simpa using h
      obtain ⟨h1, h2⟩ := hab
      subst h1; subst h2
      exact ⟨List.mem_cons_self _ _, List.mem_cons_of_mem _ (List.mem_cons_self _ _)⟩
    · rw [if_neg h] at hlen
      cases hs : splitOnPair a b (d :: cs) with
      | nil => exact absurd hs (splitOnPair_ne_nil a b (d :: cs))
      | cons p0 ps =>
        simp only [hs, List.length_cons] at hlen
        have h2 : 2 ≤ (splitOnPair a b (d :: cs)).length := by
          rw [hs]; simp only [List.length_cons]; omega
        have hmem := splitOnPair_mem_sep a b (d :: cs) h2
        exact ⟨List.mem_cons_of_mem _ hmem.1, List.mem_cons_of_mem _ hmem.2⟩

/-- Parts of a `jsSplit2` are strictly shorter than the input string once
the separator occurs. -/
theorem jsSplit2_length_lt (a b : Char) (s : String) (h : jsIncludes2 a b s = true) :
    ∀ x ∈ jsSplit2 a b s, x.length + 2 ≤ s.length := by
  intro x hx
  rcases List.mem_map.mp hx with ⟨p, hp, rfl⟩
  have hlen : 2 ≤ (splitOnPair a b s.toList).length := by
    have := of_decide_eq_true h
    omega
  have := (splitOnPair_parts a b s.toList p hp).2 hlen
  have hmk : (String.mk p).length = p.length := rfl
  have hto : s.toList.length = s.length := rfl
  omega

/-- A nonempty run of ASCII digits. -/
def isDigitStr (p : List Char) : Bool := !p.isEmpty && p.all Char.isDigit

/-- JavaScript test of `/^[0-9]+(\.[0-9]+)*$/` against `s`: the string
matches iff every `.`-separated part is a nonempty digit run. -/
def versionShape (s : String) : Bool :=
  (splitOnChar '.' s.toList).all isDigitStr

/-- JavaScript `Number` on a nonempty decimal digit string. -/
def digitsToNat (p : List Char) : Nat :=
  p.foldl (fun n c => n * 10 + (c.toNat - '0'.toNat)) 0

/-- The `split('.').map(Number)` component sequence of a dotted version. -/
def dotParts (s : String) : List Nat :=
  (splitOnChar '.' s.toList).map digitsToNat

/-- The comparison loop at the end of `versionPasses`: components are
compared left to right, a missing trailing component reads as `0`, the first
strict difference decides, and exhausted equal sequences yield `true`.
`cmpParts v m = true` says the version with components `v` is at least the
minimum with components `m`. -/
def cmpParts : List Nat → List Nat → Bool
  | [], [] => true
  | v :: vs, [] => if 0 < v then true else cmpParts vs []
  | [], m :: ms => if 0 < m then false else cmpParts [] ms
  | v :: vs, m :: ms =>
    if m < v then true else if v < m then false else cmpParts vs ms

/-- The component comparison is total: whenever `v >= m` fails, `m >= v`
holds. -/
theorem cmpParts_total : ∀ vs ms, cmpParts vs ms = false → cmpParts ms vs = true
  | [], [] => by simp [cmpParts]
  | v :: vs, [] => by
    intro h
    rw [cmpParts] at h
    rw [cmpParts]
    by_cases hv : 0 < v
    · simp [hv] at h
    · simp only [hv, if_false] at h
      simp only [hv, if_false]
      exact cmpParts_total vs [] h
  | [], m :: ms => by
    intro h
    rw [cmpParts] at h
    rw [cmpParts]
    by_cases hm : 0 < m
    · simp [hm]
    · simp only [hm, if_false] at h ⊢
      exact cmpParts_total [] ms h
  | v :: vs, m :: ms => by
    intro h
    rw [cmpParts] at h
    rw [cmpParts]
    by_cases h1 : m < v
    · simp [h1] at h
    · by_cases h2 : v < m
      · simp [h2, h1]
      · have hvm : ¬ v < m := h2
        have hmv : ¬ m < v := h1
        simp only [h1, h2, if_false] at h
        simp only [if_neg hvm, if_neg hmv]
        exact cmpParts_total vs ms h

/-- If only digit runs appear between the separators, every character of the
input is a digit or the separator. -/
theorem splitOnChar_chars (sep : Char) :
    ∀ l : List Char, (∀ p ∈ splitOnChar sep l, p.all Char.isDigit = true) →
      ∀ c ∈ l, c.isDigit = true ∨ c = sep
  | [] => by simp
  | c :: cs => by
    intro hall e he
    rw [splitOnChar] at hall
    by_cases h : (c == sep) = true
    · have hc : c = sep := beq_iff_eq.mp h
      rcases List.mem_cons.mp he with rfl | hmem
      · exact Or.inr hc
      · refine splitOnChar_chars sep cs ?_ e hmem
        intro p hp
        exact hall p (by rw [if_pos h]; exact List.mem_cons_of_mem _ hp)
    · rw [if_neg h] at hall
      cases hs : splitOnChar sep cs with
      | nil => exact absurd hs (splitOnChar_ne_nil sep cs)
      | cons p0 ps =>
        rw [hs] at hall
        have hcp : (c :: p0).all Char.isDigit = true :=
          hall (c :: p0) (List.mem_cons_self _ _)
        simp only [List.all_cons, Bool.and_eq_true] at hcp
        rcases List.mem_cons.mp he with rfl | hmem
        · exact Or.inl hcp.1
        · refine splitOnChar_chars sep cs ?_ e hmem
          intro p hp
          rw [hs] at hp
          rcases List.mem_cons.mp hp with rfl | hp2
          · exact hcp.2
          · exact hall p (List.mem_cons_of_mem _ hp2)

/-- Characters of a well-shaped dotted version are digits or dots. -/
theorem versionShape_chars (s : String) (h : versionShape s = true) :
    ∀ c ∈ s.toList, c.isDigit = true ∨ c = '.' := by
  refine splitOnChar_chars '.' s.toList ?_
  intro p hp
  have := List.all_eq_true.mp h p hp
  simp only [isDigitStr, Bool.and_eq_true] at this
  exact this.2

/-- A well-shaped dotted version contains no two-character separator whose
first character is neither a digit nor a dot. -/
theorem versionShape_no_pair (a b : Char) (s : String)
    (hd : a.isDigit = false) (hdot : a ≠ '.') (h : versionShape s = true) :
    jsIncludes2 a b s = false := by
  by_contra hne
  have ht : jsIncludes2 a b s = true := by
    cases hx : jsIncludes2 a b s
    · exact absurd hx hne
    · rfl
  have hlen : 2 ≤ (splitOnPair a b s.toList).length := by
    have := of_decide_eq_true ht
    omega
  have hmem := (splitOnPair_mem_sep a b s.toList hlen).1
  rcases versionShape_chars s h a hmem with hdig | hdoteq
  · rw [hd] at hdig; exact Bool.false_ne_true hdig
  · exact hdot hdoteq

/-- A well-shaped dotted version is nonempty. -/
theorem versionShape_ne_empty (s : String) (h : versionShape s = true) :
    (s == "") = false := by
  by_cases hs : s = ""
  · subst hs
    exact absurd h (by decide)
  · exact beq_eq_false_iff_ne.mpr hs

/-- Embedding of `versionPasses` (second variant of `WebViewShared.tsx`):
an empty argument fails; a comma-separated `minimum` requires every clause
but the last to carry an upper bound and passes when any clause passes; a
single `"min <max"` range must split into exactly two pieces and passes when
the version passes `min`, does not pass `max`, and `max` passes the original
version; otherwise both strings must be dotted numerics and the component
loop decides. -/
def versionPasses (version minimum : String) : Bool :=
  if version == "" || minimum == "" then false
  else if h1 : jsIncludes2 ',' ' ' minimum = true then
    if ((jsSplit2 ',' ' ' minimum).dropLast.all fun x => jsIncludes2 ' ' '<' x) = false
      then false
    else (jsSplit2 ',' ' ' minimum).attach.any fun x => versionPasses version x.1
  else if h2 : jsIncludes2 ' ' '<' minimum = true then
    match h3 : jsSplit2 ' ' '<' minimum with
    | mn :: mx :: rest =>
      if 0 < rest.length then false
      else versionPasses version mn && !versionPasses version mx &&
        versionPasses mx version
    | _ => false
  else if (versionShape version && versionShape minimum) = false then false
  else cmpParts (dotParts version) (dotParts minimum)
termination_by version.length + minimum.length
decreasing_by
  · have := jsSplit2_length_lt ',' ' ' minimum h1 x.1 x.2
    omega
  · have := jsSplit2_length_lt ' ' '<' minimum h2 mn
      (by rw [h3]; exact List.mem_cons_self _ _)
    omega
  · have := jsSplit2_length_lt ' ' '<' minimum h2 mx
      (by rw [h3]; exact List.mem_cons_of_mem _ (List.mem_cons_self _ _))
    omega
  · have := jsSplit2_length_lt ' ' '<' minimum h2 mx
      (by rw [h3]; exact List.mem_cons_of_mem _ (List.mem_cons_self _ _))
    omega

/-- The navigation metadata record (`WebViewNativeEvent`). -/
structure NativeEvent where
  url : String
  loading : Bool
  title : String
  canGoBack : Bool
  canGoForward : Bool
  lockIdentifier : Int
deriving DecidableEq

/-- The retained error record (`WebViewError`). -/
structure WebViewError where
  domain : Option String
  code : Int
  description : String
deriving DecidableEq

/-- A load-error event: its error record together with whether the host left
it default-prevented (the value `event.isDefaultPrevented()` reads after the
`onError`/`onLoadEnd` callbacks ran). -/
structure ErrorEvent where
  nativeEvent : WebViewError
  defaultPrevented : Bool
deriving DecidableEq

/-- A message event: navigation metadata plus the serialised payload. -/
structure MessageEvent where
  url : String
  loading : Bool
  title : String
  canGoBack : Bool
  canGoForward : Bool
  lockIdentifier : Int
  data : String
deriving DecidableEq

/-- A progress event.  `progress` embeds the JavaScript double, which the
handlers use only through the exact comparison `progress === 1`. -/
structure ProgressEvent where
  url : String
  progress : ℚ
deriving DecidableEq

/-- The `viewState` cell's values. -/
inductive ViewState
  | IDLE
  | LOADING
  | ERROR
deriving DecidableEq

/-- The hook's per-instance mutable state: the `viewState` and
`lastErrorEvent` state cells and the `startUrl` ref. -/
structure HookState where
  viewState : ViewState
  lastErrorEvent : Option WebViewError
  startUrl : Option String
deriving DecidableEq

/-- The initial hook state; `startInLoadingState` selects `LOADING`. -/
def initState (startInLoadingState : Bool) : HookState :=
  ⟨if startInLoadingState then .LOADING else .IDLE, none, none⟩

/-- Observable actions of the handlers, in execution order: host-callback
invocations, outbound native commands, and logged side effects.  An effect
for an optional host callback stands for the optional-chained call. -/
inductive Effect
  | callOnLoadStart (ev : NativeEvent)
  | navStateChange (ev : NativeEvent)
  | callOnLoad (ev : NativeEvent)
  | callOnLoadEndNav (ev : NativeEvent)
  | callOnLoadEndErr (e : WebViewError)
  | callOnError (e : WebViewError)
  | warnError (e : WebViewError)
  | callOnLoadProgress (ev : ProgressEvent)
  | callOnMessage (meta : NativeEvent) (data : String)
  | loadRequest (shouldStart : Bool) (url : String) (lockIdentifier : Int)
  | attemptOpenExternal (url : String)
deriving DecidableEq

/-- Recogniser for the decision effect sent back to the native layer. -/
def isLoadRequest : Effect → Bool
  | .loadRequest _ _ _ => true
  | _ => false

/-- Result of one handler run: the hook state afterwards, the effects
performed before returning or throwing, and whether it threw. -/
structure HandlerResult where
  state : HookState
  effects : List Effect
  threw : Bool
deriving DecidableEq

/-- Embedding of `createOnShouldStartLoadWithRequest`: the default decision
is allow; a whitelist result other than exactly `true` forces deny and fires
the external-opener side effect; otherwise a supplied custom callback
decides; the decision is sent with the event's URL and lock identifier.  A
throw out of `_passesWhitelist` aborts the handler before `loadRequest`. -/
def createOnShouldStartLoadWithRequest (parseOrigin : String → Option String)
    (originWhitelist : List String)
    (onShouldStartLoadWithRequest : Option (NativeEvent → Bool))
    (ev : NativeEvent) : List Effect × Bool :=
  match _passesWhitelist parseOrigin (compileWhitelist originWhitelist) ev.url with
  | .wthrow => ([], true)
  | .wtrue =>
    ([.loadRequest ((onShouldStartLoadWithRequest.map fun f => f ev).getD true)
        ev.url ev.lockIdentifier], false)
  | _ =>
    ([.attemptOpenExternal ev.url,
      .loadRequest false ev.url ev.lockIdentifier], false)

/-- Embedding of `onLoadingStart`: records the start URL for the Android
correlation check, then invokes `onLoadStart` (and, in the first variant,
the navigation-state callback). -/
def onLoadingStart (s : HookState) (ev : NativeEvent) : HandlerResult :=
  ⟨{ s with startUrl := some ev.url },
    [.callOnLoadStart ev, .navStateChange ev], false⟩

/-- Embedding of `onLoadingError` (identical in both variants): invoke
`onError` when supplied, else warn; invoke `onLoadEnd`; then, unless the
event is default-prevented, enter `ERROR` and store the error record. -/
def onLoadingError (hasOnError : Bool) (s : HookState) (ev : ErrorEvent) :
    HandlerResult :=
  let effs := (if hasOnError then [Effect.callOnError ev.nativeEvent]
               else [Effect.warnError ev.nativeEvent]) ++
    [Effect.callOnLoadEndErr ev.nativeEvent]
  if ev.defaultPrevented then ⟨s, effs, false⟩
  else ⟨{ s with viewState := .ERROR, lastErrorEvent := some ev.nativeEvent },
    effs, false⟩

/-- Embedding of the first variant's `onLoadingFinish`: `onLoad` then
`onLoadEnd` run first; a whitelist result other than exactly `true` stops
further processing; otherwise the state becomes `IDLE` unless on Android the
finished URL differs from the recorded start URL, and the navigation-state
callback runs. -/
def onLoadingFinish (parseOrigin : String → Option String)
    (originWhitelist : List String) (os : String) (s : HookState)
    (ev : NativeEvent) : HandlerResult :=
  match passesWhitelist parseOrigin originWhitelist ev.url with
  | .wthrow => ⟨s, [.callOnLoad ev, .callOnLoadEndNav ev], true⟩
  | .wtrue =>
    if os ≠ "android" ∨ s.startUrl = some ev.url then
      ⟨{ s with viewState := .IDLE },
        [.callOnLoad ev, .callOnLoadEndNav ev, .navStateChange ev], false⟩
    else ⟨s, [.callOnLoad ev, .callOnLoadEndNav ev, .navStateChange ev], false⟩
  | _ => ⟨s, [.callOnLoad ev, .callOnLoadEndNav ev], false⟩

/-- Embedding of the second variant's `onLoadingFinish`: as the first, with
the guarded whitelist and without the (removed) navigation-state callback. -/
def onLoadingFinishV2 (parseOrigin : String → Option String)
    (originWhitelist : List String) (os : String) (s : HookState)
    (ev : NativeEvent) : HandlerResult :=
  match passesWhitelistGuarded parseOrigin originWhitelist ev.url with
  | .wthrow => ⟨s, [.callOnLoad ev, .callOnLoadEndNav ev], true⟩
  | .wtrue =>
    if os ≠ "android" ∨ s.startUrl = some ev.url then
      ⟨{ s with viewState := .IDLE },
        [.callOnLoad ev, .callOnLoadEndNav ev], false⟩
    else ⟨s, [.callOnLoad ev, .callOnLoadEndNav ev], false⟩
  | _ => ⟨s, [.callOnLoad ev, .callOnLoadEndNav ev], false⟩

/-- Host-supplied validators and the platform JSON functions used by
`onMessage`, over an abstract type `D` of structured payloads.  `jsonParse`
models the platform `JSON.parse` and `stringify` the platform
`JSON.stringify`; the validators are the caller-supplied props, with
`Except` modelling a raised rejection. -/
structure MsgCtx (D : Type) where
  jsonParse : String → Except Unit D
  validateData : D → Except Unit D
  stringify : D → String
  validateMeta : NativeEvent → Except Unit NativeEvent

/-- The metadata extraction inside `onMessage`; the `String()`, `Boolean()`
and `Number()` coercions are identities on the typed event fields. -/
def extractMeta (ev : MessageEvent) : NativeEvent :=
  ⟨ev.url, ev.loading, ev.title, ev.canGoBack, ev.canGoForward, ev.lockIdentifier⟩

/-- Embedding of the first variant's `onMessage`: drop the message unless
the whitelist passes exactly; parse, validate and re-serialise the payload,
validate the metadata (each raise propagating out of the handler), and
deliver the combined envelope to the host. -/
def onMessage {D : Type} (parseOrigin : String → Option String)
    (originWhitelist : List String) (ctx : MsgCtx D) (s : HookState)
    (ev : MessageEvent) : HandlerResult :=
  match passesWhitelist parseOrigin originWhitelist ev.url with
  | .wthrow => ⟨s, [], true⟩
  | .wtrue =>
    match ctx.jsonParse ev.data with
    | .error _ => ⟨s, [], true⟩
    | .ok d0 =>
      match ctx.validateData d0 with
      | .error _ => ⟨s, [], true⟩
      | .ok d1 =>
        match ctx.validateMeta (extractMeta ev) with
        | .error _ => ⟨s, [], true⟩
        | .ok meta => ⟨s, [.callOnMessage meta (ctx.stringify d1)], false⟩
  | _ => ⟨s, [], false⟩

/-- Embedding of the second variant's `onMessage` (guarded whitelist). -/
def onMessageV2 {D : Type} (parseOrigin : String → Option String)
    (originWhitelist : List String) (ctx : MsgCtx D) (s : HookState)
    (ev : MessageEvent) : HandlerResult :=
  match passesWhitelistGuarded parseOrigin originWhitelist ev.url with
  | .wthrow => ⟨s, [], true⟩
  | .wtrue =>
    match ctx.jsonParse ev.data with
    | .error _ => ⟨s, [], true⟩
    | .ok d0 =>
      match ctx.validateData d0 with
      | .error _ => ⟨s, [], true⟩
      | .ok d1 =>
        match ctx.validateMeta (extractMeta ev) with
        | .error _ => ⟨s, [], true⟩
        | .ok meta => ⟨s, [.callOnMessage meta (ctx.stringify d1)], false⟩
  | _ => ⟨s, [], false⟩

/-- Embedding of the first variant's `onLoadingProgress`: no whitelist
check; on Android with progress exactly 1 a `LOADING` state becomes `IDLE`;
then `onLoadProgress` runs. -/
def onLoadingProgressV1 (os : String) (s : HookState) (ev : ProgressEvent) :
    HandlerResult :=
  ⟨if os = "android" ∧ ev.progress = 1 then
      (if s.viewState = .LOADING then { s with viewState := .IDLE } else s)
    else s,
   [.callOnLoadProgress ev], false⟩

/-- Embedding of the second variant's `onLoadingProgress`: the event's URL
must pass the guarded whitelist before the Android patch applies, and the
(removed) `onLoadProgress` callback never runs. -/
def onLoadingProgressV2 (parseOrigin : String → Option String)
    (originWhitelist : List String) (os : String) (s : HookState)
    (ev : ProgressEvent) : HandlerResult :=
  match passesWhitelistGuarded parseOrigin originWhitelist ev.url with
  | .wthrow => ⟨s, [], true⟩
  | .wtrue =>
    ⟨if os = "android" ∧ ev.progress = 1 then
        (if s.viewState = .LOADING then { s with viewState := .IDLE } else s)
      else s, [], false⟩
  | _ => ⟨s, [], false⟩

/-- The operations that can touch the hook state: every handler of either
variant, the pass-through notifications, and the imperative `reload`
command (the only host-driven transition, which forces `LOADING`). -/
inductive HookEvent
  | start (ev : NativeEvent)
  | finishV1 (ev : NativeEvent)
  | finishV2 (ev : NativeEvent)
  | error (hasOnError : Bool) (ev : ErrorEvent)
  | progressV1 (ev : ProgressEvent)
  | progressV2 (ev : ProgressEvent)
  | message (ev : MessageEvent)
  | messageV2 (ev : MessageEvent)
  | httpError
  | renderProcessGone
  | contentProcessDidTerminate
  | reload

/-- One step of the hook's state machine: the state after the given
operation runs (a handler that throws has not reached its state updates, so
the state is as the handler left it). -/
def step {D : Type} (parseOrigin : String → Option String)
    (originWhitelist : List String) (os : String) (ctx : MsgCtx D)
    (s : HookState) : HookEvent → HookState
  | .start ev => (onLoadingStart s ev).state
  | .finishV1 ev => (onLoadingFinish parseOrigin originWhitelist os s ev).state
  | .finishV2 ev => (onLoadingFinishV2 parseOrigin originWhitelist os s ev).state
  | .error ho ev => (onLoadingError ho s ev).state
  | .progressV1 ev => (onLoadingProgressV1 os s ev).state
  | .progressV2 ev => (onLoadingProgressV2 parseOrigin originWhitelist os s ev).state
  | .message ev => (onMessage parseOrigin originWhitelist ctx s ev).state
  | .messageV2 ev => (onMessageV2 parseOrigin originWhitelist ctx s ev).state
  | .httpError => s
  | .renderProcessGone => s
  | .contentProcessDidTerminate => s
  | .reload => { s with viewState := .LOADING }

/-- Run of the state machine over a sequence of operations. -/
def run {D : Type} (parseOrigin : String → Option String)
    (originWhitelist : List String) (os : String) (ctx : MsgCtx D)
    (s : HookState) (evs : List HookEvent) : HookState :=
  evs.foldl (step parseOrigin originWhitelist os ctx) s

/-- A concrete message context over natural-number payloads, used to
instantiate the generic message theorems: `jsonParse` models the platform
`JSON.parse` on the decimal-numeral subset of JSON (rejecting every other
payload, as `JSON.parse` rejects them by throwing), `stringify`
re-serialises, and both validators accept their input unchanged. -/
def natMsgCtx : MsgCtx Nat where
  jsonParse s :=
    if s.toList ≠ [] ∧ s.toList.all Char.isDigit then .ok (digitsToNat s.toList)
    else .error ()
  validateData d := .ok d
  stringify d := toString d
  validateMeta m := .ok m

/-- An empty URL never passes the unguarded whitelist check. -/
theorem passesWhitelist_empty (parseOrigin : String → Option String)
    (W : List String) : passesWhitelist parseOrigin W "" = .wfalse := rfl

/-- Claim C2: for every whitelist `W` and URL `u`, the whitelist check
returns exactly `true` iff the extracted origin is nonempty, equals the
URL's parsed origin, and some pattern among the `about:blank` sentinel and
`W` matches that origin under the glob-to-regex translation; extraction
failure yields `false`, and an origin mismatch yields the distinguished
`null` result. -/
theorem passesWhitelist_spec (parseOrigin : String → Option String)
    (W : List String) (u : String) :
    (_passesWhitelist parseOrigin (compileWhitelist W) u = .wtrue ↔
      (extractOrigin u ≠ "" ∧ parseOrigin u = some (extractOrigin u) ∧
        ∃ p ∈ "about:blank" :: W, matcherTest p (extractOrigin u) = true)) ∧
    (extractOrigin u = "" →
      _passesWhitelist parseOrigin (compileWhitelist W) u = .wfalse) ∧
    (∀ o, extractOrigin u ≠ "" → parseOrigin u = some o → o ≠ extractOrigin u →
      _passesWhitelist parseOrigin (compileWhitelist W) u = .wnull) := by
  simp only [_passesWhitelist, compileWhitelist]
  refine ⟨⟨?_, ?_⟩, ?_, ?_⟩
  · intro h
    split at h
    · simp at h
    · rename_i hb
      have h0 : extractOrigin u ≠ "" := by simpa using hb
      split at h
      · simp at h
      · rename_i o hp
        split at h
        · simp at h
        · rename_i ho
          have ho' : extractOrigin u = o := Decidable.not_not.mp ho
          split at h
          · rename_i ha
            exact ⟨h0, by rw [hp, ho'], List.any_eq_true.mp ha⟩
          · simp at h
  · rintro ⟨h0, hp, p, hpmem, hpm⟩
    have hb : (extractOrigin u == "") = false := beq_eq_false_iff_ne.mpr h0
    rw [if_neg (by simp [hb]), hp]
    simp only [ne_eq, not_true_eq_false, if_false, Bool.false_eq_true]
    rw [if_pos (List.any_eq_true.mpr ⟨p, hpmem, hpm⟩)]
  · intro h0
    rw [if_pos (by simp [h0])]
  · intro o h0 hp hne
    have hb : (extractOrigin u == "") = false := beq_eq_false_iff_ne.mpr h0
    rw [if_neg (by simp [hb]), hp]
    simp only []
    rw [if_pos (Ne.symm hne)]

/-- Claim C10: the whitelist check is not total over string URLs.  For
`https://` the extracted origin is the nonempty prefix `https://`, but the
platform URL parse used for the consistency comparison fails, so
`_passesWhitelist` throws instead of returning `true`, `false` or `null`,
and the unguarded load-request interceptor propagates the throw instead of
failing closed (it issues no decision at all). -/
theorem passesWhitelist_not_total :
    extractOrigin "https://" = "https://" ∧
    urlOrigin "https://" = none ∧
    (∀ W : List String,
      _passesWhitelist urlOrigin (compileWhitelist W) "https://" = .wthrow) ∧
    (∀ (W : List String) (custom : Option (NativeEvent → Bool)) (lockId : Int),
      createOnShouldStartLoadWithRequest urlOrigin W custom
        ⟨"https://", false, "", false, false, lockId⟩ = ([], true)) := by
  refine ⟨rfl, rfl, ?_, ?_⟩
  · intro W
    simp [_passesWhitelist, show extractOrigin "https://" = "https://" from rfl,
      show urlOrigin "https://" = none from rfl]
  · intro W custom lockId
    unfold createOnShouldStartLoadWithRequest
    rw [show _passesWhitelist urlOrigin (compileWhitelist W) "https://" = .wthrow by
      simp [_passesWhitelist, show extractOrigin "https://" = "https://" from rfl,
        show urlOrigin "https://" = none from rfl]]

/-- Claim C1 counterexample: at the should-start-load event for the URL
`https://` (lock identifier 7) the whitelist check throws, so the
interceptor issues no `loadRequest` decision at all — not exactly one. -/
theorem interceptor_throw_counterexample :
    ((createOnShouldStartLoadWithRequest urlOrigin ["https://*"] none
      ⟨"https://", false, "", false, false, 7⟩).1.filter isLoadRequest = []) ∧
    (createOnShouldStartLoadWithRequest urlOrigin ["https://*"] none
      ⟨"https://", false, "", false, false, 7⟩).2 = true := by
  decide

/-- Claim C1 (amended): for every should-start-load event on which the
whitelist check completes without throwing, the interceptor invokes the
`loadRequest` decision callback exactly once, with the event's URL and lock
identifier, and the decision is false whenever the check is not exactly
`true`; otherwise a supplied custom callback's value decides, and without
one the decision is true. -/
theorem interceptor_decision (parseOrigin : String → Option String)
    (W : List String) (custom : Option (NativeEvent → Bool)) (ev : NativeEvent)
    (h : _passesWhitelist parseOrigin (compileWhitelist W) ev.url ≠ .wthrow) :
    ((createOnShouldStartLoadWithRequest parseOrigin W custom ev).1.filter
        isLoadRequest =
      [Effect.loadRequest
        (decide (_passesWhitelist parseOrigin (compileWhitelist W) ev.url = .wtrue) &&
          (custom.map fun f => f ev).getD true)
        ev.url ev.lockIdentifier]) ∧
    (createOnShouldStartLoadWithRequest parseOrigin W custom ev).2 = false := by
  unfold createOnShouldStartLoadWithRequest
  cases hw : _passesWhitelist parseOrigin (compileWhitelist W) ev.url with
  | wtrue => simp [List.filter, isLoadRequest]
  | wfalse => simp [List.filter, isLoadRequest]
  | wnull => simp [List.filter, isLoadRequest]
  | wthrow => exact absurd hw h

/-- Witness for `interceptor_decision` at a concrete allowed URL. -/
theorem interceptor_decision_witness :
    _passesWhitelist urlOrigin (compileWhitelist ["https://*"])
        (NativeEvent.url ⟨"https://ok.example", false, "", false, false, 3⟩) ≠
      .wthrow ∧
    (((createOnShouldStartLoadWithRequest urlOrigin ["https://*"] none
        ⟨"https://ok.example", false, "", false, false, 3⟩).1.filter isLoadRequest =
      [Effect.loadRequest
        (decide (_passesWhitelist urlOrigin (compileWhitelist ["https://*"])
            (NativeEvent.url ⟨"https://ok.example", false, "", false, false, 3⟩) = .wtrue) &&
          ((Option.map (fun f => f ⟨"https://ok.example", false, "", false, false, 3⟩)
            (none : Option (NativeEvent → Bool))).getD true))
        (NativeEvent.url ⟨"https://ok.example", false, "", false, false, 3⟩)
        (NativeEvent.lockIdentifier ⟨"https://ok.example", false, "", false, false, 3⟩)]) ∧
      (createOnShouldStartLoadWithRequest urlOrigin ["https://*"] none
        ⟨"https://ok.example", false, "", false, false, 3⟩).2 = false) :=
  ⟨by decide,
    interceptor_decision urlOrigin ["https://*"] none
      ⟨"https://ok.example", false, "", false, false, 3⟩ (by decide)⟩

/-- An `any` over an attached list ignores the membership proofs. -/
theorem attach_any_eq {α : Type} (l : List α) (f : α → Bool) :
    (l.attach.any fun x => f x.1) = l.any f := by
  rw [Bool.eq_iff_iff]
  simp [List.any_eq_true, Subtype.exists]

/-- An empty version string never passes. -/
theorem versionPasses_empty_version (m : String) : versionPasses "" m = false := by
  unfold versionPasses
  simp

/-- When a two-character separator occurs, the split has at least two
parts. -/
theorem jsIncludes2_split (a b : Char) (s : String) (h : jsIncludes2 a b s = true) :
    ∃ mn mx rest, jsSplit2 a b s = mn :: mx :: rest := by
  have hlen : 2 ≤ (jsSplit2 a b s).length := by
    have := of_decide_eq_true h
    simp only [jsSplit2, List.length_map]
    omega
  match hl : jsSplit2 a b s with
  | [] => rw [hl] at hlen; simp at hlen
  | [x] => rw [hl] at hlen; simp at hlen
  | mn :: mx :: rest => exact ⟨mn, mx, rest, rfl⟩

/-- On well-shaped dotted inputs `versionPasses` is exactly the component
comparison loop. -/
theorem versionPasses_dotted (a b : String)
    (ha : versionShape a = true) (hb : versionShape b = true) :
    versionPasses a b = cmpParts (dotParts a) (dotParts b) := by
  have h1 : jsIncludes2 ',' ' ' b = false :=
    versionShape_no_pair ',' ' ' b (by decide) (by decide) hb
  have h2 : jsIncludes2 ' ' '<' b = false :=
    versionShape_no_pair ' ' '<' b (by decide) (by decide) hb
  have ha' : (a == "") = false := versionShape_ne_empty a ha
  have hb' : (b == "") = false := versionShape_ne_empty b hb
  unfold versionPasses
  simp [ha', hb', h1, h2, ha, hb]

/-- The single-range branch of `versionPasses` as an equation. -/
theorem versionPasses_range_eq (v minimum : String)
    (h1 : jsIncludes2 ',' ' ' minimum = false)
    (h2 : jsIncludes2 ' ' '<' minimum = true) :
    versionPasses v minimum =
      (match jsSplit2 ' ' '<' minimum with
       | mn :: mx :: rest =>
         if 0 < rest.length then false
         else versionPasses v mn && !versionPasses v mx && versionPasses mx v
       | _ => false) := by
  obtain ⟨mn, mx, rest, hsp⟩ := jsIncludes2_split ' ' '<' minimum h2
  rw [hsp]
  show versionPasses v minimum =
    (if 0 < rest.length then false
     else versionPasses v mn && !versionPasses v mx && versionPasses mx v)
  by_cases hv : v = ""
  · rw [hv, versionPasses_empty_version]
    by_cases hr : 0 < rest.length
    · rw [if_pos hr]
    · rw [if_neg hr, versionPasses_empty_version, Bool.false_and, Bool.false_and]
  · have hm : (minimum == "") = false := by
      refine beq_eq_false_iff_ne.mpr fun hh => ?_
      subst hh
      exact absurd h2 (by decide)
    rw [versionPasses.eq_def]
    rw [if_neg (by simp [beq_eq_false_iff_ne.mpr hv, hm])]
    rw [dif_neg (by simp [h1])]
    rw [dif_pos h2]
    split
    · rename_i mn2 mx2 rest2 heq
      rw [hsp] at heq
      injection heq with e1 heq2
      injection heq2 with e2 e3
      subst e1; subst e2; subst e3
      rfl
    · rename_i hne
      exact (hne mn mx rest hsp).elim

/-- Claim C3: for a single-range `minimum` that contains a space-then-`<`,
`versionPasses` splits on the separator, rejects more than one remainder,
and otherwise requires the version to pass `min`, not pass `max`, and `max`
to pass the version; for well-formed dotted inputs this coincides with
`v >= min` and `v < max` under the component comparison. -/
theorem versionPasses_range (v minimum : String)
    (h1 : jsIncludes2 ',' ' ' minimum = false)
    (h2 : jsIncludes2 ' ' '<' minimum = true) :
    (versionPasses v minimum =
      (match jsSplit2 ' ' '<' minimum with
       | mn :: mx :: rest =>
         if 0 < rest.length then false
         else versionPasses v mn && !versionPasses v mx && versionPasses mx v
       | _ => false)) ∧
    (∀ mn mx, jsSplit2 ' ' '<' minimum = [mn, mx] →
      versionShape v = true → versionShape mn = true → versionShape mx = true →
      versionPasses v minimum =
        (cmpParts (dotParts v) (dotParts mn) &&
          !cmpParts (dotParts v) (dotParts mx))) := by
  refine ⟨versionPasses_range_eq v minimum h1 h2, ?_⟩
  intro mn mx hsp hshv hshmn hshmx
  rw [versionPasses_range_eq v minimum h1 h2, hsp]
  show (if 0 < ([] : List String).length then false
      else versionPasses v mn && !versionPasses v mx && versionPasses mx v) = _
  rw [if_neg (by simp)]
  rw [versionPasses_dotted v mn hshv hshmn, versionPasses_dotted v mx hshv hshmx,
    versionPasses_dotted mx v hshmx hshv]
  cases hx : cmpParts (dotParts v) (dotParts mx) with
  | true => simp
  | false => rw [cmpParts_total _ _ hx]; simp

/-- Witness for `versionPasses_range` on the concrete range `1.2 <2.0`. -/
theorem versionPasses_range_witness :
    jsIncludes2 ',' ' ' "1.2 <2.0" = false ∧
    jsIncludes2 ' ' '<' "1.2 <2.0" = true ∧
    jsSplit2 ' ' '<' "1.2 <2.0" = ["1.2", "2.0"] ∧
    versionPasses "1.5" "1.2 <2.0" =
      (cmpParts (dotParts "1.5") (dotParts "1.2") &&
        !cmpParts (dotParts "1.5") (dotParts "2.0")) :=
  ⟨by decide, by decide, by decide,
    (versionPasses_range "1.5" "1.2 <2.0" (by decide) (by decide)).2 "1.2" "2.0"
      (by decide) (by decide) (by decide) (by decide)⟩

/-- Claim C4: for a comma-separated `minimum`, `versionPasses` fails when
some clause other than the last lacks the `" <"` upper-bound separator, and
otherwise passes exactly when the version satisfies at least one clause. -/
theorem versionPasses_disjunction (v minimum : String)
    (h : jsIncludes2 ',' ' ' minimum = true) :
    versionPasses v minimum =
      (((jsSplit2 ',' ' ' minimum).dropLast.all fun x => jsIncludes2 ' ' '<' x) &&
        ((jsSplit2 ',' ' ' minimum).any fun x => versionPasses v x)) := by
  by_cases hv : v = ""
  · subst hv
    rw [versionPasses_empty_version]
    have hany : ((jsSplit2 ',' ' ' minimum).any fun x => versionPasses "" x) = false := by
      rw [List.any_eq_false]
      intro x _
      simp [versionPasses_empty_version]
    rw [hany, Bool.and_false]
  · have hm : (minimum == "") = false := by
      refine beq_eq_false_iff_ne.mpr fun hh => ?_
      subst hh
      exact absurd h (by decide)
    rw [versionPasses.eq_def]
    rw [if_neg (by simp [beq_eq_false_iff_ne.mpr hv, hm])]
    rw [dif_pos h]
    cases hall : (jsSplit2 ',' ' ' minimum).dropLast.all fun x => jsIncludes2 ' ' '<' x with
    | false => rw [if_pos rfl, Bool.false_and]
    | true => rw [if_neg (by simp), Bool.true_and, attach_any_eq]

/-- Witness for `versionPasses_disjunction` on a concrete disjunction. -/
theorem versionPasses_disjunction_witness :
    jsIncludes2 ',' ' ' "1.0 <2.0, 3.0" = true ∧
    versionPasses "3.5" "1.0 <2.0, 3.0" =
      (((jsSplit2 ',' ' ' "1.0 <2.0, 3.0").dropLast.all fun x => jsIncludes2 ' ' '<' x) &&
        ((jsSplit2 ',' ' ' "1.0 <2.0, 3.0").any fun x => versionPasses "3.5" x)) :=
  ⟨by decide, versionPasses_disjunction "3.5" "1.0 <2.0, 3.0" (by decide)⟩

/-- Witness for `passesWhitelist_spec` at a URL with no extractable
origin. -/
theorem passesWhitelist_spec_witness :
    extractOrigin "nonsense" = "" ∧
    _passesWhitelist urlOrigin (compileWhitelist ["https://*"]) "nonsense" = .wfalse :=
  ⟨rfl, (passesWhitelist_spec urlOrigin ["https://*"] "nonsense").2.1 rfl⟩

/-- Claim C5: on a load-finish event the `onLoad` and then the `onLoadEnd`
callbacks run unconditionally (whether or not the URL passes the whitelist);
the view state becomes `IDLE` exactly when the finished URL passes the
whitelist and, on Android, additionally equals the start URL recorded by the
most recent load-start event, while elsewhere the whitelist pass alone
suffices; otherwise — in particular whenever the whitelist fails — the state
is unchanged.  Both variants of the finish handler are covered, and the last
conjunct is the start-URL recording performed by the load-start handler. -/
theorem loadingFinish_spec (parseOrigin : String → Option String)
    (W : List String) (os : String) (s : HookState) (ev : NativeEvent) :
    ((onLoadingFinish parseOrigin W os s ev).effects.take 2 =
      [Effect.callOnLoad ev, Effect.callOnLoadEndNav ev]) ∧
    ((onLoadingFinish parseOrigin W os s ev).state =
      (if passesWhitelist parseOrigin W ev.url = .wtrue ∧
          (os ≠ "android" ∨ s.startUrl = some ev.url)
        then { s with viewState := .IDLE } else s)) ∧
    ((onLoadingFinishV2 parseOrigin W os s ev).effects.take 2 =
      [Effect.callOnLoad ev, Effect.callOnLoadEndNav ev]) ∧
    ((onLoadingFinishV2 parseOrigin W os s ev).state =
      (if passesWhitelistGuarded parseOrigin W ev.url = .wtrue ∧
          (os ≠ "android" ∨ s.startUrl = some ev.url)
        then { s with viewState := .IDLE } else s)) ∧
    (∀ (s2 : HookState) (ev2 : NativeEvent),
      (onLoadingStart s2 ev2).state.startUrl = some ev2.url) := by
  refine ⟨?_, ?_, ?_, ?_, fun s2 ev2 => rfl⟩
  · cases hw : passesWhitelist parseOrigin W ev.url <;>
      simp only [onLoadingFinish, hw] <;>
      first
        | rfl
        | (split <;> rfl)
  · cases hw : passesWhitelist parseOrigin W ev.url
    case wtrue =>
      simp only [onLoadingFinish, hw]
      by_cases hc : os ≠ "android" ∨ s.startUrl = some ev.url
      · rw [if_pos hc, if_pos ⟨trivial, hc⟩]
      · rw [if_neg hc, if_neg fun hh => hc hh.2]
    all_goals
      simp only [onLoadingFinish, hw]
      rw [if_neg (by simp)]
  · cases hw : passesWhitelistGuarded parseOrigin W ev.url <;>
      simp only [onLoadingFinishV2, hw] <;>
      first
        | rfl
        | (split <;> rfl)
  · cases hw : passesWhitelistGuarded parseOrigin W ev.url
    case wtrue =>
      simp only [onLoadingFinishV2, hw]
      by_cases hc : os ≠ "android" ∨ s.startUrl = some ev.url
      · rw [if_pos hc, if_pos ⟨trivial, hc⟩]
      · rw [if_neg hc, if_neg fun hh => hc hh.2]
    all_goals
      simp only [onLoadingFinishV2, hw]
      rw [if_neg (by simp)]

/-- Claim C6 counterexample: at 100% progress on Android in `LOADING` state
the first variant's progress handler changes the view state even though the
event's URL does not pass the whitelist. -/
theorem loadingProgress_counterexample :
    ((onLoadingProgressV1 "android" ⟨.LOADING, none, none⟩
        ⟨"http://evil.example", 1⟩).state ≠ ⟨.LOADING, none, none⟩) ∧
    passesWhitelist urlOrigin ["https://*"] "http://evil.example" ≠ .wtrue ∧
    passesWhitelistGuarded urlOrigin ["https://*"] "http://evil.example" ≠ .wtrue := by
  decide

/-- Claim C6 (amended): the second variant's progress handler changes the
view state exactly when the event's URL passes the whitelist, the platform
is Android, the reported progress is exactly 1 and the state is `LOADING`,
the change setting it to `IDLE`; the first variant's handler applies the
same rule but without the whitelist condition. -/
theorem loadingProgress_spec (parseOrigin : String → Option String)
    (W : List String) (os : String) (s : HookState) (ev : ProgressEvent) :
    ((onLoadingProgressV1 os s ev).state =
      (if os = "android" ∧ ev.progress = 1 ∧ s.viewState = .LOADING
        then { s with viewState := .IDLE } else s)) ∧
    ((onLoadingProgressV2 parseOrigin W os s ev).state =
      (if passesWhitelistGuarded parseOrigin W ev.url = .wtrue ∧
          os = "android" ∧ ev.progress = 1 ∧ s.viewState = .LOADING
        then { s with viewState := .IDLE } else s)) := by
  constructor
  · simp only [onLoadingProgressV1]
    by_cases h1 : os = "android" ∧ ev.progress = 1
    · rw [if_pos h1]
      by_cases h2 : s.viewState = .LOADING
      · rw [if_pos h2, if_pos ⟨h1.1, h1.2, h2⟩]
      · rw [if_neg h2, if_neg fun hh => h2 hh.2.2]
    · rw [if_neg h1, if_neg fun hh => h1 ⟨hh.1, hh.2.1⟩]
  · cases hw : passesWhitelistGuarded parseOrigin W ev.url
    case wtrue =>
      simp only [onLoadingProgressV2, hw]
      by_cases h1 : os = "android" ∧ ev.progress = 1
      · rw [if_pos h1]
        by_cases h2 : s.viewState = .LOADING
        · rw [if_pos h2, if_pos ⟨trivial, h1.1, h1.2, h2⟩]
        · rw [if_neg h2, if_neg fun hh => h2 hh.2.2.2]
      · rw [if_neg h1, if_neg fun hh => h1 ⟨hh.2.1, hh.2.2.1⟩]
    all_goals
      simp only [onLoadingProgressV2, hw]
      rw [if_neg (by simp)]

/-- The first variant's message handler never touches the hook state. -/
theorem onMessage_state {D : Type} (parseOrigin : String → Option String)
    (W : List String) (ctx : MsgCtx D) (s : HookState) (ev : MessageEvent) :
    (onMessage parseOrigin W ctx s ev).state = s := by
  cases hw : passesWhitelist parseOrigin W ev.url <;>
    simp only [onMessage, hw]
  case wtrue =>
    cases hj : ctx.jsonParse ev.data <;> simp only [hj]
    case ok d0 =>
      cases hd : ctx.validateData d0 <;> simp only [hd]
      case ok d1 =>
        cases hm : ctx.validateMeta (extractMeta ev) <;> simp only [hm]

/-- The second variant's message handler never touches the hook state. -/
theorem onMessageV2_state {D : Type} (parseOrigin : String → Option String)
    (W : List String) (ctx : MsgCtx D) (s : HookState) (ev : MessageEvent) :
    (onMessageV2 parseOrigin W ctx s ev).state = s := by
  cases hw : passesWhitelistGuarded parseOrigin W ev.url <;>
    simp only [onMessageV2, hw]
  case wtrue =>
    cases hj : ctx.jsonParse ev.data <;> simp only [hj]
    case ok d0 =>
      cases hd : ctx.validateData d0 <;> simp only [hd]
      case ok d1 =>
        cases hm : ctx.validateMeta (extractMeta ev) <;> simp only [hm]

/-- Every operation preserves the error invariant (a non-null record while
in `ERROR`). -/
theorem step_preserves_error_inv {D : Type} (parseOrigin : String → Option String)
    (W : List String) (os : String) (ctx : MsgCtx D) (s : HookState)
    (e : HookEvent) (h : s.viewState = .ERROR → s.lastErrorEvent ≠ none) :
    (step parseOrigin W os ctx s e).viewState = .ERROR →
    (step parseOrigin W os ctx s e).lastErrorEvent ≠ none := by
  cases e with
  | start ev => exact h
  | finishV1 ev =>
    cases hw : passesWhitelist parseOrigin W ev.url <;>
      simp only [step, onLoadingFinish, hw]
    case wtrue =>
      split
      · intro h2; simp at h2
      · exact h
    all_goals exact h
  | finishV2 ev =>
    cases hw : passesWhitelistGuarded parseOrigin W ev.url <;>
      simp only [step, onLoadingFinishV2, hw]
    case wtrue =>
      split
      · intro h2; simp at h2
      · exact h
    all_goals exact h
  | error ho ev =>
    simp only [step, onLoadingError]
    split
    · exact h
    · intro _; simp
  | progressV1 ev =>
    simp only [step, onLoadingProgressV1]
    split
    · split
      · intro h2; simp at h2
      · exact h
    · exact h
  | progressV2 ev =>
    cases hw : passesWhitelistGuarded parseOrigin W ev.url <;>
      simp only [step, onLoadingProgressV2, hw]
    case wtrue =>
      split
      · split
        · intro h2; simp at h2
        · exact h
      · exact h
    all_goals exact h
  | message ev =>
    simp only [step, onMessage_state]
    exact h
  | messageV2 ev =>
    simp only [step, onMessageV2_state]
    exact h
  | httpError => exact h
  | renderProcessGone => exact h
  | contentProcessDidTerminate => exact h
  | reload => intro h2; simp [step] at h2

/-- A run from a state satisfying the error invariant keeps it. -/
theorem run_preserves_error_inv {D : Type} (parseOrigin : String → Option String)
    (W : List String) (os : String) (ctx : MsgCtx D) (evs : List HookEvent) :
    ∀ s : HookState, (s.viewState = .ERROR → s.lastErrorEvent ≠ none) →
      (run parseOrigin W os ctx s evs).viewState = .ERROR →
      (run parseOrigin W os ctx s evs).lastErrorEvent ≠ none := by
  induction evs with
  | nil => exact fun s h => h
  | cons e t ih =>
    intro s h
    exact ih _ (step_preserves_error_inv parseOrigin W os ctx s e h)

/-- Claim C7: along every run from the initial state, whenever the view
state is `ERROR` the retained last-error record is non-null; a load-error
event not marked default-prevented sets `ERROR` and simultaneously stores
the event's error record; a default-prevented load-error leaves the state
(hence also the stored record) unchanged; and no operation other than a
non-default-prevented load-error enters the `ERROR` state. -/
theorem errorState_invariant {D : Type} (parseOrigin : String → Option String)
    (W : List String) (os : String) (ctx : MsgCtx D) :
    (∀ (b : Bool) (evs : List HookEvent),
      (run parseOrigin W os ctx (initState b) evs).viewState = .ERROR →
      (run parseOrigin W os ctx (initState b) evs).lastErrorEvent ≠ none) ∧
    (∀ (s : HookState) (ho : Bool) (ev : ErrorEvent),
      ev.defaultPrevented = false →
      (onLoadingError ho s ev).state =
        { s with viewState := .ERROR, lastErrorEvent := some ev.nativeEvent }) ∧
    (∀ (s : HookState) (ho : Bool) (ev : ErrorEvent),
      ev.defaultPrevented = true → (onLoadingError ho s ev).state = s) ∧
    (∀ (s : HookState) (e : HookEvent),
      (step parseOrigin W os ctx s e).viewState = .ERROR →
      s.viewState = .ERROR ∨
        ∃ ho ev, e = .error ho ev ∧ ev.defaultPrevented = false) := by
  refine ⟨?_, ?_, ?_, ?_⟩
  · intro b evs
    exact run_preserves_error_inv parseOrigin W os ctx evs (initState b)
      (fun hE => absurd hE (by cases b <;> decide))
  · intro s ho ev hprev
    simp [onLoadingError, hprev]
  · intro s ho ev hprev
    simp [onLoadingError, hprev]
  · intro s e
    cases e with
    | start ev => exact fun h2 => Or.inl h2
    | finishV1 ev =>
      cases hw : passesWhitelist parseOrigin W ev.url <;>
        simp only [step, onLoadingFinish, hw]
      case wtrue =>
        split
        · intro h2; simp at h2
        · exact fun h2 => Or.inl h2
      all_goals exact fun h2 => Or.inl h2
    | finishV2 ev =>
      cases hw : passesWhitelistGuarded parseOrigin W ev.url <;>
        simp only [step, onLoadingFinishV2, hw]
      case wtrue =>
        split
        · intro h2; simp at h2
        · exact fun h2 => Or.inl h2
      all_goals exact fun h2 => Or.inl h2
    | error ho ev =>
      cases hp : ev.defaultPrevented with
      | true =>
        simp only [step, onLoadingError, hp]
        exact fun h2 => Or.inl h2
      | false =>
        exact fun _ => Or.inr ⟨ho, ev, rfl, hp⟩
    | progressV1 ev =>
      simp only [step, onLoadingProgressV1]
      split
      · split
        · intro h2; simp at h2
        · exact fun h2 => Or.inl h2
      · exact fun h2 => Or.inl h2
    | progressV2 ev =>
      cases hw : passesWhitelistGuarded parseOrigin W ev.url <;>
        simp only [step, onLoadingProgressV2, hw]
      case wtrue =>
        split
        · split
          · intro h2; simp at h2
          · exact fun h2 => Or.inl h2
        · exact fun h2 => Or.inl h2
      all_goals exact fun h2 => Or.inl h2
    | message ev =>
      simp only [step, onMessage_state]
      exact fun h2 => Or.inl h2
    | messageV2 ev =>
      simp only [step, onMessageV2_state]
      exact fun h2 => Or.inl h2
    | httpError => exact fun h2 => Or.inl h2
    | renderProcessGone => exact fun h2 => Or.inl h2
    | contentProcessDidTerminate => exact fun h2 => Or.inl h2
    | reload => intro h2; simp [step] at h2

/-- Witness for `errorState_invariant` at a concrete error event. -/
theorem errorState_invariant_witness :
    ErrorEvent.defaultPrevented ⟨⟨some "dom", 42, "boom"⟩, false⟩ = false ∧
    (onLoadingError true ⟨.LOADING, none, none⟩
        ⟨⟨some "dom", 42, "boom"⟩, false⟩).state =
      ⟨.ERROR, some ⟨some "dom", 42, "boom"⟩, none⟩ :=
  ⟨rfl, by
    have h := (errorState_invariant (D := Nat) urlOrigin ["https://*"] "android"
      natMsgCtx).2.1 ⟨.LOADING, none, none⟩ true
      ⟨⟨some "dom", 42, "boom"⟩, false⟩ rfl
    simpa using h⟩

/-- Claim C8: a message whose reported URL does not pass the whitelist
exactly never reaches the host callback; a message on which the data or the
metadata validator raises never reaches the host callback, while the hook
state is untouched (so subsequently received messages — processed by the
same pure handler from the same state — are unaffected); otherwise the host
callback receives the validated metadata combined with the re-serialised
validated data.  The final conjunct records that the handler never alters
the state at all. -/
theorem onMessage_spec {D : Type} (parseOrigin : String → Option String)
    (W : List String) (ctx : MsgCtx D) (s : HookState) (ev : MessageEvent) :
    (passesWhitelist parseOrigin W ev.url ≠ .wtrue →
      ∀ m d, Effect.callOnMessage m d ∉ (onMessage parseOrigin W ctx s ev).effects) ∧
    (∀ d0, ctx.jsonParse ev.data = .ok d0 →
      (ctx.validateData d0 = .error () ∨
        (∃ d1, ctx.validateData d0 = .ok d1 ∧
          ctx.validateMeta (extractMeta ev) = .error ())) →
      (∀ m d, Effect.callOnMessage m d ∉ (onMessage parseOrigin W ctx s ev).effects) ∧
      (onMessage parseOrigin W ctx s ev).state = s) ∧
    (∀ d0 d1 meta, passesWhitelist parseOrigin W ev.url = .wtrue →
      ctx.jsonParse ev.data = .ok d0 → ctx.validateData d0 = .ok d1 →
      ctx.validateMeta (extractMeta ev) = .ok meta →
      (onMessage parseOrigin W ctx s ev).effects =
        [Effect.callOnMessage meta (ctx.stringify d1)]) ∧
    (onMessage parseOrigin W ctx s ev).state = s := by
  refine ⟨?_, ?_, ?_, onMessage_state parseOrigin W ctx s ev⟩
  · intro hne m d
    cases hw : passesWhitelist parseOrigin W ev.url
    case wtrue => exact absurd hw hne
    all_goals simp [onMessage, hw]
  · intro d0 hj hbad
    refine ⟨?_, onMessage_state parseOrigin W ctx s ev⟩
    intro m d
    cases hw : passesWhitelist parseOrigin W ev.url
    case wtrue =>
      rcases hbad with hb | ⟨d1, hd1, hmeta⟩
      · simp [onMessage, hw, hj, hb]
      · simp [onMessage, hw, hj, hd1, hmeta]
    all_goals simp [onMessage, hw]
  · intro d0 d1 meta hw hj hd hm
    simp [onMessage, hw, hj, hd, hm]

/-- Witness for `onMessage_spec` at a concrete delivered message. -/
theorem onMessage_spec_witness :
    passesWhitelist urlOrigin ["https://*"] "https://example.com" = .wtrue ∧
    natMsgCtx.jsonParse "42" = .ok 42 ∧
    (onMessage urlOrigin ["https://*"] natMsgCtx ⟨.IDLE, none, none⟩
        ⟨"https://example.com", false, "", false, false, 0, "42"⟩).effects =
      [Effect.callOnMessage
        (extractMeta ⟨"https://example.com", false, "", false, false, 0, "42"⟩)
        (natMsgCtx.stringify 42)] :=
  ⟨by decide, rfl,
    (onMessage_spec urlOrigin ["https://*"] natMsgCtx ⟨.IDLE, none, none⟩
        ⟨"https://example.com", false, "", false, false, 0, "42"⟩).2.2.1
      42 42 (extractMeta ⟨"https://example.com", false, "", false, false, 0, "42"⟩)
      (by decide) rfl rfl rfl⟩

/-- Claim C9 counterexample: at a message event whose URL passes the
whitelist but whose payload is not JSON, the message handler does throw out
of the component (rather than failing closed without an exception), while
dropping the message and leaving the state unchanged. -/
theorem onMessage_nonjson_counterexample :
    (onMessage urlOrigin ["https://*"] natMsgCtx ⟨.IDLE, none, none⟩
        ⟨"https://example.com", false, "", false, false, 0, "!!notjson"⟩).threw =
      true ∧
    (onMessage urlOrigin ["https://*"] natMsgCtx ⟨.IDLE, none, none⟩
        ⟨"https://example.com", false, "", false, false, 0, "!!notjson"⟩).effects =
      [] ∧
    (onMessage urlOrigin ["https://*"] natMsgCtx ⟨.IDLE, none, none⟩
        ⟨"https://example.com", false, "", false, false, 0, "!!notjson"⟩).state =
      ⟨.IDLE, none, none⟩ := by
  decide

/-- Claim C9 (amended): on a whitelisted URL with a payload the JSON parse
rejects, both variants of the message handler drop the message without
invoking the host callback and without touching the state, but the parse
error propagates out of the handler instead of being caught. -/
theorem onMessage_nonjson {D : Type} (parseOrigin : String → Option String)
    (W : List String) (ctx : MsgCtx D) (s : HookState) (ev : MessageEvent)
    (hw : passesWhitelist parseOrigin W ev.url = .wtrue)
    (hp : ctx.jsonParse ev.data = .error ()) :
    onMessage parseOrigin W ctx s ev = ⟨s, [], true⟩ ∧
    onMessageV2 parseOrigin W ctx s ev = ⟨s, [], true⟩ := by
  have hg : passesWhitelistGuarded parseOrigin W ev.url = .wtrue := by
    have hurl : ¬ (ev.url == "") = true := by
      intro hb
      have he : ev.url = "" := by simpa using hb
      rw [he, passesWhitelist_empty] at hw
      exact absurd hw (by decide)
    unfold passesWhitelistGuarded
    rw [if_neg hurl]
    exact hw
  constructor
  · simp [onMessage, hw, hp]
  · simp [onMessageV2, hg, hp]

/-- Witness for `onMessage_nonjson` at a concrete non-JSON payload. -/
theorem onMessage_nonjson_witness :
    passesWhitelist urlOrigin ["https://*"] "https://ok.example" = .wtrue ∧
    natMsgCtx.jsonParse "oops" = .error () ∧
    onMessageV2 urlOrigin ["https://*"] natMsgCtx ⟨.LOADING, none, none⟩
      ⟨"https://ok.example", false, "", false, false, 1, "oops"⟩ =
      ⟨⟨.LOADING, none, none⟩, [], true⟩ :=
  ⟨by decide, rfl,
    (onMessage_nonjson urlOrigin ["https://*"] natMsgCtx ⟨.LOADING, none, none⟩
      ⟨"https://ok.example", false, "", false, false, 1, "oops"⟩
      (by decide) rfl).2⟩

end RNWebView
